import Mathlib

/-!
Verification of the gQuery selector engine (src/gquery.js).

The development shallowly embeds the three components of the library that the
claims concern:

* the record tree that gQuery queries (records are JS objects; we model a
  record as a finite association list of string-valued fields together with
  an ordered list of child records),
* the `Adapter` accessor capability (`getId` / `getClass` / `getName`) and
  the predicate construction of `LocatorPart` (`getBasePredicate`,
  `applyCondition`, `Node.prototype.get`),
* the matcher (`Adapter.prototype.findMatches`, `Locator.prototype.find`,
  `getCollection`) and the selector parser (`parseSelector`, including the
  semantics of the tokenizing regular expression
  `[#\.]?(?:[\w\d\-]+(?:\[[\w\d]+[=]".*"\])?|>)` and of the condition
  regular expression applied to each part value).

Modelling decisions, recorded once here:

* JS field values are modelled as strings.  The engine compares every value
  with `String(...)` coercion, so string-valued fields exercise every code
  path; an absent field is `Option.none` and `String(undefined)` is the
  string "undefined" (`jsString`).  The one JS-truthiness test the engine
  performs, `(this.object && this.object[property]) || undefined` in
  `Node.prototype.get`, collapses the only falsy string, "", to `none`
  (`nodeGet`); records themselves are always objects, hence truthy.
* `Adapter.prototype.getChildren` defaults to `node.children || []`.  The
  recursion of the matcher is over these children; we fix the children
  accessor to the structural child list of the record (the default), which
  makes the traversal well-founded exactly as the spec's finite-acyclic-tree
  assumption demands.  The id/class/name accessors stay fully pluggable.
* String positions are code points (Lean `Char` lists); all selectors in the
  claims are ASCII, where this coincides with JS string indices.
-/

/-! ## Records: the tree being queried -/

mutual
/-- One queried object: JS-object fields (string-valued, in insertion
order) plus the `children` array that the default adapter traverses. -/
inductive Record where
  | mk : List (String × String) → RecordList → Record
  deriving DecidableEq
/-- A JS array of child records, kept as a separate inductive so that the
matcher's recursion over a record's children is structural. -/
inductive RecordList where
  | nil : RecordList
  | cons : Record → RecordList → RecordList
  deriving DecidableEq
end

/-- Field table of a record. -/
def Record.fields : Record → List (String × String)
  | .mk f _ => f

/-- Child array of a record (default `getChildren`: `node.children || []`;
a record with no children field is modelled with the empty child list). -/
def Record.children : Record → RecordList
  | .mk _ cs => cs

/-- Read one field of a record, `undefined` (`none`) when absent. -/
def Record.field (r : Record) (key : String) : Option String :=
  r.fields.lookup key

/-- View a child array as an ordinary list. -/
def RecordList.toList : RecordList → List Record
  | .nil => []
  | .cons r rs => r :: rs.toList

/-- Order-preserving child expansion used by `Locator.prototype.find`:
`Lazy(result).map(match => match.children).flatten().toArray()` maps each
match to its (adapter-derived) children. -/
def getChildren (r : Record) : List Record :=
  r.children.toList

/-- JS `String(x)` applied to a possibly-`undefined` value: `undefined`
stringifies to "undefined". -/
def jsString : Option String → String
  | none => "undefined"
  | some s => s

/-! ## The Adapter capability (gquery.js lines 402-462) -/

/-- The pluggable accessor set of `Adapter`.  `getChildren` is fixed to the
structural child list (see the header); the three compared accessors are
data, so claims can quantify over overrides. -/
structure Adapter where
  getId : Record → Option String
  getClass : Record → Option String
  getName : Record → Option String

/-- The default accessors: `node.id`, `node.class`, `node.name`
(gquery.js lines 448-458). -/
def defaultAdapter : Adapter :=
  { getId := fun node => node.field "id"
    getClass := fun node => node.field "class"
    getName := fun node => node.field "name" }

/-! ## findMatches (gquery.js lines 472-488)

`Adapter.prototype.findMatches(nodes, recursive, predicate, matches)` walks
`nodes` in order, pushing each node satisfying `predicate` onto the shared
`matches` array and, when `recursive`, descending into the node's children
(with `recursive` staying `true`) before moving to the next node.  The
accumulator-passing transcription below mirrors that shape exactly; the
top-level call passes the empty accumulator (`matches || (matches = [])`).
-/

mutual
/-- Visit of a single node by `findMatches`: test it, then (when recursive)
its children, extending the accumulated match array. -/
def findMatchesAccNode : Record → Bool → (Record → Bool) → List Record → List Record
  | .mk f cs, recursive, p, acc =>
    let m1 := if p (.mk f cs) then acc ++ [Record.mk f cs] else acc
    if recursive then findMatchesAccKids cs p m1 else m1
/-- Left-to-right visit of a child array by the recursive branch of
`findMatches` (recursion there always passes `recursive = true`). -/
def findMatchesAccKids : RecordList → (Record → Bool) → List Record → List Record
  | .nil, _, acc => acc
  | .cons c rest, p, acc => findMatchesAccKids rest p (findMatchesAccNode c true p acc)
end

/-- Left-to-right visit of the seed list by `findMatches`. -/
def findMatchesAcc : List Record → Bool → (Record → Bool) → List Record → List Record
  | [], _, _, acc => acc
  | n :: rest, recursive, p, acc => findMatchesAcc rest recursive p (findMatchesAccNode n recursive p acc)

/-- Entry point `Adapter.prototype.findMatches` as called by the locator: no initial
`matches` array, so it starts from `[]`. -/
def findMatches (nodes : List Record) (recursive : Bool) (p : Record → Bool) : List Record :=
  findMatchesAcc nodes recursive p []

/-! ## Selector parts and their predicates (gquery.js lines 580-641) -/

/-- The `type` field of a part: 'id', 'class' or 'name'. -/
inductive PartType where
  | id
  | cls
  | name
  deriving DecidableEq, Repr

/-- An attribute condition attached to a part.  The parser only ever emits
conditions with `type: 'equality'`, so the equality payload is the whole
datum (`applyCondition` throws on any other tag, which is unreachable from
parsed selectors). -/
structure Condition where
  property : String
  value : String
  deriving DecidableEq, Repr

/-- The options record built by `parseSelector` for one part, which is also
(field for field) the state of the constructed `LocatorPart`: the parser
always supplies `type` and a non-empty `value`, so the `|| 'name'`,
`|| false`, `|| ''` defaults in the `LocatorPart` constructor are inert. -/
structure PartOptions where
  source : String
  type : PartType
  direct : Bool
  value : String
  condition : Option Condition
  deriving DecidableEq, Repr

/-- Model of `LocatorPart.prototype.getBasePredicate`: compare the stringified
accessor value for the part's type against the part value. -/
def getBasePredicate (a : Adapter) (ty : PartType) (value : String) : Record → Bool :=
  match ty with
  | .id => fun node => jsString (a.getId node) == value
  | .cls => fun node => jsString (a.getClass node) == value
  | .name => fun node => jsString (a.getName node) == value

/-- Model of `Node.prototype.get`: `(this.object && this.object[property]) ||
undefined`.  The object is truthy; a present-but-falsy field value (the
string "") is collapsed to `undefined` by the `|| undefined`. -/
def nodeGet (r : Record) (property : String) : Option String :=
  match r.field property with
  | some v => if v == "" then none else some v
  | none => none

/-- Model of `LocatorPart.prototype.applyCondition` for the (only) 'equality' kind:
`if (!predicate(node)) return false; return String(node.get(p)) ===
String(value)` — the condition value is already a string, so its own
`String(...)` is the identity. -/
def applyCondition (c : Condition) (pred : Record → Bool) : Record → Bool :=
  fun node =>
    if !(pred node) then false
    else jsString (nodeGet node c.property) == c.value

/-- Model of `LocatorPart.prototype.getPredicate`: the base predicate, refined by the
condition when one is present. -/
def partMatches (a : Adapter) (p : PartOptions) : Record → Bool :=
  match p.condition with
  | some c => applyCondition c (getBasePredicate a p.type p.value)
  | none => getBasePredicate a p.type p.value

/-! ## The selector parser (gquery.js lines 679-743)

`parseSelector` drives the global regular expression
`[#\.]?(?:[\w\d\-]+(?:\[[\w\d]+[=]".*"\])?|>)` over the selector:
repeatedly, from the current position, the leftmost match is taken and the
scan resumes after it.  The functions below reproduce that tokenization:
`\w` is ASCII letters, digits and underscore (plus the class's hyphen);
the greedy `.*` (any character but a line terminator) followed by `"` `]`
matches up to the last closing `"]` reachable without crossing a line
terminator; the optional leading `[#\.]` cannot rescue a failed body, since
`#` and `.` are neither word characters nor `>`.
-/

/-- Characters matched by the class `[\w\d\-]`. -/
def isWordChar (c : Char) : Bool :=
  c.isAlpha || c.isDigit || c == '_' || c == '-'

/-- Characters matched by the class `[\w\d]` (the condition property
name: no hyphen, unlike the outer part-token class). -/
def isPropChar (c : Char) : Bool :=
  c.isAlpha || c.isDigit || c == '_'

/-- Characters matched by `.` in a JS regular expression: anything but a
LineTerminator (LF, CR, LS, PS). -/
def isDotChar (c : Char) : Bool :=
  !(c == '\n' || c == '\r' || c.val == 0x2028 || c.val == 0x2029)

/-- Greedy match of `.*"\]` : the largest `k` such that position `k` holds
`"`, position `k+1` holds `]`, and everything before `k` is `.`-matchable. -/
def lastClose (cs : List Char) : Option Nat :=
  let limit := (cs.takeWhile isDotChar).length
  ((List.range (limit + 1)).filter fun k =>
    cs.get? k == some '"' && cs.get? (k + 1) == some ']').getLast?

/-- Match of the condition group `\[[\w\d]+[=]".*"\]` at the head of the
input, returning the property name and the quoted content. -/
def bracketParse (cs : List Char) : Option (List Char × List Char) :=
  match cs with
  | '[' :: cs1 =>
    let w := cs1.takeWhile isPropChar
    if w.length == 0 then none
    else
      match cs1.drop w.length with
      | '=' :: '"' :: cs2 =>
        match lastClose cs2 with
        | some k => some (w, cs2.take k)
        | none => none
      | _ => none
  | _ => none

/-- Number of characters consumed by a successful condition-group match. -/
def bracketLen (cs : List Char) : Option Nat :=
  match bracketParse cs with
  | some (w, content) => some (1 + w.length + 2 + content.length + 2)
  | none => none

/-- Number of characters consumed by the regex body
`[\w\d\-]+(?:\[...\])?|>` at the head of the input: a maximal non-empty
word run with an optional condition group, or the literal `>`. -/
def bodyLen (cs : List Char) : Option Nat :=
  let w := (cs.takeWhile isWordChar).length
  if w == 0 then
    match cs with
    | '>' :: _ => some 1
    | _ => none
  else
    match bracketLen (cs.drop w) with
    | some b => some (w + b)
    | none => some w

/-- Characters consumed after the first one by a whole-pattern match
starting at character `c`: with a `#`/`.` sigil the body starts after it
(backtracking to an unconsumed sigil cannot help, as a sigil character can
never start the body); otherwise the body starts at `c` itself. -/
def matchExtraLen (c : Char) (rest : List Char) : Option Nat :=
  if c == '#' || c == '.' then
    match bodyLen rest with
    | some m => some m
    | none => none
  else
    match bodyLen (c :: rest) with
    | some m => some (m - 1)
    | none => none

/-- Repeated `matcher.exec`: scan left to right, emitting each leftmost
match with its start offset and resuming after it.  The fuel is the number
of characters left, which bounds the number of iterations since every
iteration consumes at least one character (`tokenize_fuel` below shows the
result does not depend on the fuel once sufficient). -/
def tokenize : Nat → Nat → List Char → List (Nat × List Char)
  | 0, _, _ => []
  | _ + 1, _, [] => []
  | fuel + 1, i, c :: rest =>
    match matchExtraLen c rest with
    | some m => (i, c :: rest.take m) :: tokenize fuel (i + 1 + m) (rest.drop m)
    | none => tokenize fuel (i + 1) rest

/-- Token stream of a selector string. -/
def tokenizeSel (s : String) : List (Nat × List Char) :=
  tokenize s.toList.length 0 s.toList

/-- The single selector-level failure: a redundant direct-descendant
combinator, carrying the character offset reported by the thrown message
(`'Encountered redundant "direct descendant" (>) selector at ' +
match.index`). -/
inductive ParseError where
  | redundantCombinator : Nat → ParseError
  deriving DecidableEq, Repr

/-- Per-token part construction of `parseSelector`: classify by the leading
sigil, then split off a condition with `value.match(/\[([\w\d]+)[=]"(.*)"\]/)`
— the leftmost occurrence of the condition group inside the value. -/
def condMatch : Nat → List Char → Option (Nat × List Char × List Char)
  | _, [] => none
  | i, c :: rest =>
    match bracketParse (c :: rest) with
    | some (w, content) => some (i, w, content)
    | none => condMatch (i + 1) rest

/-- Build the `partOptions` record for one non-`>` token. -/
def mkPart (tok : List Char) (direct : Bool) : PartOptions :=
  let stripped : PartType × List Char :=
    match tok with
    | '#' :: v => (PartType.id, v)
    | '.' :: v => (PartType.cls, v)
    | _ => (PartType.name, tok)
  match condMatch 0 stripped.2 with
  | some (idx, prop, cval) =>
    { source := String.mk tok
      type := stripped.1
      direct := direct
      value := String.mk (stripped.2.take idx)
      condition := some { property := String.mk prop, value := String.mk cval } }
  | none =>
    { source := String.mk tok
      type := stripped.1
      direct := direct
      value := String.mk stripped.2
      condition := none }

/-- Loop body of `parseSelector`: a `>` token sets the pending direct flag
(throwing when it is already set), any other token becomes a part consuming
the flag. -/
def parseTokens : List (Nat × List Char) → Bool → Except ParseError (List PartOptions)
  | [], _ => .ok []
  | (i, tok) :: rest, direct =>
    if tok == ['>'] then
      if direct then .error (.redundantCombinator i)
      else parseTokens rest true
    else
      match parseTokens rest false with
      | .ok parts => .ok (mkPart tok direct :: parts)
      | .error e => .error e

/-- Model of `parseSelector` (gquery.js lines 679-743). -/
def parseSelector (selector : String) : Except ParseError (List PartOptions) :=
  parseTokens (tokenizeSel selector) false

/-! ## The Locator (gquery.js lines 498-571) -/

/-- Argument to `Locator.prototype.find`: a single record or an array of
records (an existing collection is used as-is and is already a list). -/
inductive Seed where
  | single : Record → Seed
  | many : List Record → Seed

/-- Model of `getCollection` (gquery.js lines 745-755): wrap a bare record in a
one-element sequence, keep an array or collection as it is. -/
def getCollection : Seed → List Record
  | .single r => [r]
  | .many rs => rs

/-- Loop of `Locator.prototype.find`: `Lazy(this.parts).each(function(part,
i) ...)` with `finalIndex = this.parts.length - 1`; every part replaces the
working sequence by its `findMatches` output, expanded to the matches'
children unless the part is the final one. -/
def findFrom (a : Adapter) (finalIndex : Nat) : Nat → List PartOptions → List Record → List Record
  | _, [], result => result
  | i, part :: rest, result =>
    let ms := findMatches result (!part.direct) (partMatches a part)
    findFrom a finalIndex (i + 1) rest (if i == finalIndex then ms else ms.flatMap getChildren)

/-- Model of `Locator.prototype.find` over already-parsed parts (the `Locator`
constructor maps each parsed options record to a `LocatorPart` whose
defaults are inert, see `PartOptions`). -/
def Locator.find (a : Adapter) (parts : List PartOptions) (target : Seed) : List Record :=
  findFrom a (parts.length - 1) 0 parts (getCollection target)

/-! ## Spec-side definitions

`findChainSpec` renders the spec's §4.3 description of the part chaining
(step (c)) as a recursion: the next part searches the flattened children of
the matches, the final part's matches are returned as-is.  `redundantOffset`
renders the spec's "two `>` tokens occur consecutively with no real part
between them", as the first adjacent pair of `>` tokens in the token
stream, yielding the offset of its second (offending) member.
-/

/-- Spec's step-(c) chaining, written as the spec words it. -/
def findChainSpec (a : Adapter) : List PartOptions → List Record → List Record
  | [], current => current
  | part :: rest, current =>
    let ms := findMatches current (!part.direct) (partMatches a part)
    match rest with
    | [] => ms
    | _ :: _ => findChainSpec a rest (ms.flatMap getChildren)

/-- Offset of the second member of the first adjacent `>`,`>` pair of a
token stream (`none` when no such pair exists). -/
def redundantOffset : List (Nat × List Char) → Option Nat
  | (_, t1) :: (j, t2) :: rest =>
    if t1 == ['>'] && t2 == ['>'] then some j
    else redundantOffset ((j, t2) :: rest)
  | _ => none

/-- Offset at which `parseSelector`'s loop, entered with pending-direct
flag `d`, will report a redundant combinator: the first `>` token seen
while the flag is set (the flag is set by a `>` token and cleared by any
part token). -/
def redundantOffsetFrom : Bool → List (Nat × List Char) → Option Nat
  | _, [] => none
  | d, (i, t) :: rest =>
    if t == ['>'] then
      if d then some i else redundantOffsetFrom true rest
    else redundantOffsetFrom false rest

/-- Accessor selected by a part's type (`getBasePredicate`'s switch). -/
def accessorFor (a : Adapter) : PartType → Record → Option String
  | .id => a.getId
  | .cls => a.getClass
  | .name => a.getName

/-! ## Concrete inputs used by the example-based claims -/

/-- Two-root tree of the direct-descendant chaining example (gquery.js
lines 528-548): a root named "foo" with children named "foo" and "bar"
and an unnamed child holding a grandchild named "bar", next to a root
named "bar" with one child named "foo". -/
def c3tree : List Record :=
  [ Record.mk [("name", "foo")]
      (.cons (.mk [("name", "foo"), ("x", "1")] .nil)
        (.cons (.mk [("name", "bar"), ("x", "2")] .nil)
          (.cons (.mk [] (.cons (.mk [("name", "bar"), ("x", "3")] .nil) .nil)) .nil))),
    Record.mk [("name", "bar")] (.cons (.mk [("name", "foo"), ("x", "4")] .nil) .nil) ]

/-- The direct child named "bar" of the first root of `c3tree`. -/
def c3result : Record :=
  Record.mk [("name", "bar"), ("x", "2")] RecordList.nil

/-- Part parsed from the selector `x[q=""]`. -/
def c4part : PartOptions :=
  { source := "x[q=\"\"]", type := .name, direct := false, value := "x",
    condition := some { property := "q", value := "" } }

/-- Record whose field "q" is present but holds the (falsy) empty string. -/
def c4rec : Record :=
  Record.mk [("name", "x"), ("q", "")] RecordList.nil

/-- Part parsed from the selector `x[q="v"]`. -/
def c4wpart : PartOptions :=
  { source := "x[q=\"v\"]", type := .name, direct := false, value := "x",
    condition := some { property := "q", value := "v" } }

/-- Record with name "x" and field "q" holding "v". -/
def c4wrec : Record :=
  Record.mk [("name", "x"), ("q", "v")] RecordList.nil

/-- Name part matching `c8rec`. -/
def c8part : PartOptions :=
  { source := "x", type := .name, direct := false, value := "x", condition := none }

/-- Part whose base test (id "a") and condition (field "id" equal to "b")
contradict each other, so that no record whatsoever satisfies it. -/
def c8dead : PartOptions :=
  { source := "#a[id=\"b\"]", type := .id, direct := false, value := "a",
    condition := some { property := "id", value := "b" } }

/-- One-record seed named "x". -/
def c8rec : Record :=
  Record.mk [("name", "x")] RecordList.nil

/-! ## Lemmas about findMatches

The accumulator threaded through `findMatches` only ever grows at the end,
so the output is the initial accumulator followed by the matches found from
the empty accumulator; from that, the traversal is characterized as an
in-order scan with pre-order descent.
-/

mutual
/-- Accumulator shift for the single-node visit. -/
theorem findMatchesAccNode_shift (n : Record) (b : Bool) (p : Record → Bool) (acc : List Record) :
    findMatchesAccNode n b p acc = acc ++ findMatchesAccNode n b p [] := by
  match n with
  | .mk f cs =>
    cases b with
    | false =>
      simp only [findMatchesAccNode]
      cases p (.mk f cs) <;> simp
    | true =>
      simp only [findMatchesAccNode]
      cases hp : p (Record.mk f cs)
      · simp only [hp, Bool.false_eq_true, if_false, if_true]
        rw [findMatchesAccKids_shift cs p acc]
      · simp only [hp, if_true]
        rw [findMatchesAccKids_shift cs p (acc ++ [Record.mk f cs])]
        simp only [List.nil_append]
        rw [findMatchesAccKids_shift cs p ([Record.mk f cs])]
        simp

/-- Accumulator shift for the child-array visit. -/
theorem findMatchesAccKids_shift (cs : RecordList) (p : Record → Bool) (acc : List Record) :
    findMatchesAccKids cs p acc = acc ++ findMatchesAccKids cs p [] := by
  match cs with
  | .nil => simp [findMatchesAccKids]
  | .cons c rest =>
    simp only [findMatchesAccKids]
    rw [findMatchesAccNode_shift c true p acc,
        findMatchesAccKids_shift rest p (acc ++ findMatchesAccNode c true p []),
        findMatchesAccKids_shift rest p (findMatchesAccNode c true p [])]
    simp
end

/-- Accumulator shift for the seed-list visit. -/
theorem findMatchesAcc_shift (nodes : List Record) (b : Bool) (p : Record → Bool)
    (acc : List Record) :
    findMatchesAcc nodes b p acc = acc ++ findMatchesAcc nodes b p [] := by
  induction nodes generalizing acc with
  | nil => simp [findMatchesAcc]
  | cons n rest ih =>
    simp only [findMatchesAcc]
    rw [findMatchesAccNode_shift n b p acc,
        ih (acc ++ findMatchesAccNode n b p []),
        ih (findMatchesAccNode n b p [])]
    simp

/-- The child-array visit is `findMatches` of the children as a list. -/
theorem findMatchesAccKids_eq (cs : RecordList) (p : Record → Bool) :
    findMatchesAccKids cs p [] = findMatches cs.toList true p := by
  match cs with
  | .nil => rfl
  | .cons c rest =>
    show findMatchesAccKids rest p (findMatchesAccNode c true p []) = _
    rw [findMatchesAccKids_shift rest p (findMatchesAccNode c true p []),
        findMatchesAccKids_eq rest p]
    show _ = findMatchesAcc (c :: rest.toList) true p []
    simp only [findMatchesAcc]
    rw [findMatchesAcc_shift rest.toList true p (findMatchesAccNode c true p [])]
    rfl

/-- Evaluation of the single-node visit: the node itself (when it
matches), then its subtree matches (when recursive). -/
theorem findMatchesAccNode_eval (n : Record) (b : Bool) (p : Record → Bool) :
    findMatchesAccNode n b p [] =
      (if p n then [n] else []) ++ (if b then findMatches (getChildren n) true p else []) := by
  match n with
  | .mk f cs =>
    cases b with
    | false =>
      simp only [findMatchesAccNode]
      cases p (.mk f cs) <;> simp
    | true =>
      simp only [findMatchesAccNode, if_true]
      rw [findMatchesAccKids_shift cs p (if p (Record.mk f cs) then [] ++ [Record.mk f cs] else []),
          findMatchesAccKids_eq cs p]
      simp [getChildren, Record.children]

/-- One step of the seed-list scan. -/
theorem findMatches_cons (n : Record) (rest : List Record) (b : Bool) (p : Record → Bool) :
    findMatches (n :: rest) b p = findMatchesAccNode n b p [] ++ findMatches rest b p := by
  show findMatchesAcc rest b p (findMatchesAccNode n b p []) = _
  rw [findMatchesAcc_shift rest b p (findMatchesAccNode n b p [])]
  rfl

/-- Non-recursive search is an order-preserving filter of the seeds. -/
theorem findMatches_false (nodes : List Record) (p : Record → Bool) :
    findMatches nodes false p = nodes.filter p := by
  induction nodes with
  | nil => rfl
  | cons n rest ih =>
    rw [findMatches_cons, findMatchesAccNode_eval, ih, List.filter_cons]
    cases p n <;> simp

/-- Recursive search step: the head seed (emitted first when it matches),
then the matches inside its children, then the remaining seeds. -/
theorem findMatches_cons_true (n : Record) (rest : List Record) (p : Record → Bool) :
    findMatches (n :: rest) true p =
      (if p n then [n] else []) ++ findMatches (getChildren n) true p
        ++ findMatches rest true p := by
  rw [findMatches_cons, findMatchesAccNode_eval]
  simp

mutual
/-- Everything the single-node visit emits satisfies the predicate. -/
theorem mem_findMatchesAccNode (n : Record) (b : Bool) (p : Record → Bool) (r : Record)
    (h : r ∈ findMatchesAccNode n b p []) : p r = true := by
  match n with
  | .mk f cs =>
    cases b with
    | false =>
      simp only [findMatchesAccNode] at h
      cases hp : p (Record.mk f cs) <;> simp [hp] at h
      · exact h ▸ hp
    | true =>
      simp only [findMatchesAccNode, if_true] at h
      rw [findMatchesAccKids_shift cs p
        (if p (Record.mk f cs) then [] ++ [Record.mk f cs] else [])] at h
      rcases List.mem_append.mp h with h1 | h2
      · cases hp : p (Record.mk f cs) <;> simp [hp] at h1
        · exact h1 ▸ hp
      · exact mem_findMatchesAccKids cs p r h2

/-- Everything the child-array visit emits satisfies the predicate. -/
theorem mem_findMatchesAccKids (cs : RecordList) (p : Record → Bool) (r : Record)
    (h : r ∈ findMatchesAccKids cs p []) : p r = true := by
  match cs with
  | .nil => simp [findMatchesAccKids] at h
  | .cons c rest =>
    simp only [findMatchesAccKids] at h
    rw [findMatchesAccKids_shift rest p (findMatchesAccNode c true p [])] at h
    rcases List.mem_append.mp h with h1 | h2
    · exact mem_findMatchesAccNode c true p r h1
    · exact mem_findMatchesAccKids rest p r h2
end

/-- Everything `findMatches` returns satisfies the predicate. -/
theorem mem_findMatches (nodes : List Record) (b : Bool) (p : Record → Bool) (r : Record)
    (h : r ∈ findMatches nodes b p) : p r = true := by
  induction nodes with
  | nil => simp [findMatches, findMatchesAcc] at h
  | cons n rest ih =>
    rw [findMatches_cons] at h
    rcases List.mem_append.mp h with h1 | h2
    · exact mem_findMatchesAccNode n b p r h1
    · exact ih h2

/-! ## Lemmas about the locator loop -/

/-- The indexed loop of `Locator.prototype.find`, entered at position `i`
with `finalIndex` pointing at the last remaining part, is the spec's
chaining recursion. -/
theorem findFrom_chain (a : Adapter) (ps : List PartOptions) :
    ∀ (i : Nat) (cur : List Record),
      findFrom a (i + ps.length - 1) i ps cur = findChainSpec a ps cur := by
  induction ps with
  | nil => intro i cur; rfl
  | cons part rest ih =>
    intro i cur
    simp only [findFrom, findChainSpec, List.length_cons]
    have harith : i + (rest.length + 1) - 1 = i + rest.length := by omega
    simp only [harith]
    cases rest with
    | nil =>
      simp only [List.length_nil, Nat.add_zero, beq_self_eq_true, if_true]
      rfl
    | cons q rest2 =>
      have hne : (i == i + (q :: rest2).length) = false := by
        simp only [List.length_cons, beq_eq_false_iff_ne]
        omega
      simp only [hne, Bool.false_eq_true, if_false]
      have := ih (i + 1)
        ((findMatches cur (!part.direct) (partMatches a part)).flatMap getChildren)
      have harith2 : i + 1 + (q :: rest2).length - 1 = i + (q :: rest2).length := by
        simp only [List.length_cons]; omega
      rw [harith2] at this
      exact this

/-- Theorem that `Locator.prototype.find` computes the spec's chaining recursion on the
normalized seed collection. -/
theorem locatorFind_chain (a : Adapter) (parts : List PartOptions) (seed : Seed) :
    Locator.find a parts seed = findChainSpec a parts (getCollection seed) := by
  show findFrom a (parts.length - 1) 0 parts (getCollection seed) = _
  have := findFrom_chain a parts 0 (getCollection seed)
  rw [Nat.zero_add] at this
  exact this

/-- The chaining recursion ends in a plain `findMatches` call for the last
part, over some working sequence. -/
theorem chain_last (a : Adapter) (pre : List PartOptions) (p : PartOptions) :
    ∀ cur : List Record, ∃ cur' : List Record,
      findChainSpec a (pre ++ [p]) cur = findMatches cur' (!p.direct) (partMatches a p) := by
  induction pre with
  | nil => intro cur; exact ⟨cur, rfl⟩
  | cons q pre ih =>
    intro cur
    cases pre with
    | nil => exact ih _
    | cons c pre2 => exact ih _

/-! ## Lemmas about the parser -/

/-- The tokenizer's fuel is irrelevant once it covers the input length
(every iteration consumes at least one character), so seeding the fuel
with the input length loses nothing. -/
theorem tokenize_fuel (f1 : Nat) :
    ∀ (f2 i : Nat) (cs : List Char), cs.length ≤ f1 → cs.length ≤ f2 →
      tokenize f1 i cs = tokenize f2 i cs := by
  induction f1 with
  | zero =>
    intro f2 i cs h1 _
    rw [List.eq_nil_of_length_eq_zero (Nat.le_zero.mp h1)]
    cases f2 <;> rfl
  | succ f1 ih =>
    intro f2 i cs h1 h2
    cases cs with
    | nil => cases f2 <;> rfl
    | cons c rest =>
      cases f2 with
      | zero => simp at h2
      | succ g =>
        simp only [List.length_cons, Nat.succ_le_succ_iff] at h1 h2
        simp only [tokenize]
        cases hm : matchExtraLen c rest with
        | none => exact ih g (i + 1) rest h1 h2
        | some m =>
          have hd : (rest.drop m).length ≤ f1 := by
            rw [List.length_drop]; omega
          have hd2 : (rest.drop m).length ≤ g := by
            rw [List.length_drop]; omega
          exact congrArg (List.cons (i, c :: rest.take m)) (ih g (i + 1 + m) (rest.drop m) hd hd2)

/-- The adjacent-pair reading of "two consecutive `>` tokens" coincides
with the pending-flag reading that drives the parser loop. -/
theorem redundantOffset_eq (toks : List (Nat × List Char)) :
    redundantOffsetFrom false toks = redundantOffset toks ∧
    ∀ i : Nat, redundantOffsetFrom true toks = redundantOffset ((i, ['>']) :: toks) := by
  induction toks with
  | nil => exact ⟨rfl, fun i => rfl⟩
  | cons jt rest ih =>
    obtain ⟨j, t⟩ := jt
    have h1 : redundantOffsetFrom false ((j, t) :: rest) = redundantOffset ((j, t) :: rest) := by
      simp only [redundantOffsetFrom]
      cases ht : t == ['>'] with
      | true =>
        have ht' : t = ['>'] := eq_of_beq ht
        subst ht'
        simp only [Bool.false_eq_true, if_false, if_true]
        exact ih.2 j
      | false =>
        simp only [Bool.false_eq_true, if_false]
        cases rest with
        | nil => exact ih.1
        | cons ku rest2 =>
          obtain ⟨k, u⟩ := ku
          rw [ih.1]
          simp only [redundantOffset, ht, Bool.false_and, Bool.false_eq_true, if_false]
    refine ⟨h1, fun i => ?_⟩
    simp only [redundantOffsetFrom, redundantOffset, BEq.refl, Bool.true_and]
    cases ht : t == ['>'] with
    | true => simp [ht]
    | false =>
      simp only [Bool.false_eq_true, if_false]
      rw [← h1]
      simp only [redundantOffsetFrom, ht, Bool.false_eq_true, if_false]

/-- The parser loop, entered with pending flag `d`, fails exactly where
`redundantOffsetFrom` locates the offending `>` token. -/
theorem parseTokens_error (toks : List (Nat × List Char)) :
    ∀ (d : Bool) (j : Nat), redundantOffsetFrom d toks = some j →
      parseTokens toks d = .error (.redundantCombinator j) := by
  induction toks with
  | nil => intro d j h; simp [redundantOffsetFrom] at h
  | cons it rest ih =>
    obtain ⟨i, t⟩ := it
    intro d j h
    simp only [redundantOffsetFrom] at h
    simp only [parseTokens]
    cases ht : t == ['>'] with
    | true =>
      rw [ht] at h
      simp only [if_true] at h ⊢
      cases d with
      | true =>
        simp only [if_true] at h ⊢
        simp only [Option.some.injEq] at h
        rw [h]
      | false =>
        simp only [Bool.false_eq_true, if_false] at h ⊢
        exact ih true j h
    | false =>
      rw [ht] at h
      simp only [Bool.false_eq_true, if_false] at h ⊢
      rw [ih false j h]

/-! ## Claim theorems -/

/-- C1: in a multi-part query the working sequence evolves exactly as the
spec's chaining step describes: after matching part `i`, when `i` is not
the last part the working sequence becomes the order-preserving
concatenation of `getChildren m` over the matches `m`, and when `i` is the
last part the working sequence becomes the match sequence itself, which is
the returned result.  `findChainSpec` is that description verbatim, and
the locator's indexed loop computes it. -/
theorem find_part_chaining (a : Adapter) (parts : List PartOptions) (seed : Seed) :
    Locator.find a parts seed = findChainSpec a parts (getCollection seed) :=
  locatorFind_chain a parts seed

/-- C2: for every predicate, the per-part search is an in-order scan of the
seeds; non-recursively it is exactly an order-preserving filter of the
seeds (no descent), and recursively each seed is emitted (when it matches)
before the matches found below it via `getChildren`, followed by the
matches of the remaining seeds — pre-order, no sorting, no
deduplication. -/
theorem findMatches_preorder_contract (p : Record → Bool) :
    (∀ nodes : List Record, findMatches nodes false p = nodes.filter p) ∧
    (∀ (n : Record) (rest : List Record),
      findMatches (n :: rest) true p =
        (if p n then [n] else []) ++ findMatches (getChildren n) true p
          ++ findMatches rest true p) :=
  ⟨fun nodes => findMatches_false nodes p, fun n rest => findMatches_cons_true n rest p⟩

/-- C3: on the two-root example tree, the query "foo > bar" with the
default accessors returns exactly the direct child named "bar" of the
first root; the nested grandchild "bar" and the second root are
excluded. -/
theorem direct_descendant_example :
    (parseSelector "foo > bar").map
      (fun ps => Locator.find defaultAdapter ps (Seed.many c3tree)) = .ok [c3result] := rfl

/-- C4 counterexample: the claim "the part matches r iff the base
predicate holds and String(r[p]) === v" fails on the parsed selector
`x[q=""]` and a record whose field "q" holds the empty string: the base
name test holds and the raw field stringifies to the condition value "",
yet the part does not match, because the condition reads the field through
`Node.prototype.get`, whose `|| undefined` collapses the falsy "" to
`undefined`. -/
theorem condition_plain_field_counterexample :
    parseSelector "x[q=\"\"]" = .ok [c4part] ∧
    ¬ (partMatches defaultAdapter c4part c4rec = true ↔
        (getBasePredicate defaultAdapter c4part.type c4part.value c4rec = true ∧
          jsString (c4rec.field "q") = "")) :=
  ⟨rfl, by decide⟩

/-- C4 amended: for every record and part carrying a condition, the part
matches iff the base id/class/name predicate holds and the record's field
for the condition property — read through `Node.prototype.get`, which
yields `undefined` for an absent or falsy value — coerced to string equals
the condition's literal value. -/
theorem condition_uses_nodeGet (a : Adapter) (p : PartOptions) (c : Condition) (r : Record)
    (h : p.condition = some c) :
    (partMatches a p r = true ↔
      (getBasePredicate a p.type p.value r = true ∧
        jsString (nodeGet r c.property) = c.value)) := by
  simp only [partMatches, h, applyCondition]
  cases hb : getBasePredicate a p.type p.value r <;> simp [hb]

/-- C4 witness: the amended equivalence at the part `x[q="v"]` and a record
with name "x" and field "q" holding "v". -/
theorem condition_uses_nodeGet_witness :
    partMatches defaultAdapter c4wpart c4wrec = true ↔
      (getBasePredicate defaultAdapter c4wpart.type c4wpart.value c4wrec = true ∧
        jsString (nodeGet c4wrec "q") = "v") :=
  condition_uses_nodeGet defaultAdapter c4wpart { property := "q", value := "v" } c4wrec rfl

/-- C5: "#foo" parses to the single non-direct Id part "foo"; "foo > bar"
parses to two Name parts with only the second direct; "#foo .bar baz"
parses to Id, Class, Name parts in that order, all non-direct. -/
theorem parse_structure_examples :
    parseSelector "#foo" = .ok
      [{ source := "#foo", type := PartType.id, direct := false, value := "foo",
         condition := none }] ∧
    parseSelector "foo > bar" = .ok
      [{ source := "foo", type := PartType.name, direct := false, value := "foo",
         condition := none },
       { source := "bar", type := PartType.name, direct := true, value := "bar",
         condition := none }] ∧
    parseSelector "#foo .bar baz" = .ok
      [{ source := "#foo", type := PartType.id, direct := false, value := "foo",
         condition := none },
       { source := ".bar", type := PartType.cls, direct := false, value := "bar",
         condition := none },
       { source := "baz", type := PartType.name, direct := false, value := "baz",
         condition := none }] :=
  ⟨rfl, rfl, rfl⟩

/-- C6: for every selector string whose token stream contains two adjacent
`>` tokens (no real part between them), parsing fails with the
redundant-combinator error carrying the character offset of the offending
(second) `>` token, and no part sequence is returned. -/
theorem parse_redundant_combinator (s : String) (j : Nat)
    (h : redundantOffset (tokenizeSel s) = some j) :
    parseSelector s = .error (.redundantCombinator j) := by
  show parseTokens (tokenizeSel s) false = _
  apply parseTokens_error (tokenizeSel s) false j
  rw [(redundantOffset_eq (tokenizeSel s)).1]
  exact h

/-- C6 witness: "foo > > bar" has adjacent `>` tokens at offsets 4 and 6
and parsing reports the redundant combinator at offset 6. -/
theorem parse_redundant_combinator_witness :
    redundantOffset (tokenizeSel "foo > > bar") = some 6 ∧
    parseSelector "foo > > bar" = .error (.redundantCombinator 6) :=
  ⟨rfl, parse_redundant_combinator "foo > > bar" 6 rfl⟩

/-- C7: the selector `#foo[bar="baz"]` parses to a single Id part whose
base value is "foo" with the equality condition property "bar", value
"baz". -/
theorem parse_condition_extraction :
    parseSelector "#foo[bar=\"baz\"]" = .ok
      [{ source := "#foo[bar=\"baz\"]", type := PartType.id, direct := false, value := "foo",
         condition := some { property := "bar", value := "baz" } }] := rfl

/-- Helper for the C8 witness: no record at all satisfies the part
`#a[id="b"]` (its base test and its condition contradict each other). -/
theorem c8dead_nowhere (q : Record) : partMatches defaultAdapter c8dead q = false := by
  have hq : partMatches defaultAdapter c8dead q =
      (if !(jsString (q.field "id") == "a") then false
       else jsString (nodeGet q "id") == "b") := rfl
  rw [hq]
  cases hf : q.field "id" with
  | none => simp [jsString]
  | some v =>
    by_cases hv : v = "a"
    · subst hv
      simp only [jsString, beq_self_eq_true, Bool.not_true, Bool.false_eq_true, if_false]
      rw [show nodeGet q "id" = some "a" by simp [nodeGet, hf]]
      simp [jsString]
    · simp [jsString, hv]

/-- C8: query execution is total by construction (`Locator.find` is a Lean
function into result sequences — the matcher has no failure path), every
returned record satisfies the final part, and when no record satisfies the
final part the returned sequence is empty. -/
theorem find_total_and_empty (a : Adapter) (pre : List PartOptions) (p : PartOptions)
    (seed : Seed) :
    (∀ r ∈ Locator.find a (pre ++ [p]) seed, partMatches a p r = true) ∧
    ((∀ q : Record, partMatches a p q = false) →
      Locator.find a (pre ++ [p]) seed = []) := by
  obtain ⟨cur', hc⟩ := chain_last a pre p (getCollection seed)
  have hfind : Locator.find a (pre ++ [p]) seed
      = findMatches cur' (!p.direct) (partMatches a p) := by
    rw [locatorFind_chain a (pre ++ [p]) seed, hc]
  constructor
  · intro r hr
    rw [hfind] at hr
    exact mem_findMatches cur' (!p.direct) (partMatches a p) r hr
  · intro hall
    rw [hfind]
    rw [List.eq_nil_iff_forall_not_mem]
    intro r hr
    have hp := mem_findMatches cur' (!p.direct) (partMatches a p) r hr
    rw [hall r] at hp
    exact Bool.false_ne_true hp

/-- C8 witness: the record returned by the query "x" over the one-record
seed satisfies the part, and the nowhere-satisfiable part `#a[id="b"]`
returns the empty sequence. -/
theorem find_total_and_empty_witness :
    partMatches defaultAdapter c8part c8rec = true ∧
    Locator.find defaultAdapter [c8dead] (Seed.many [c8rec]) = [] := by
  constructor
  · exact (find_total_and_empty defaultAdapter [] c8part (Seed.many [c8rec])).1 c8rec
      (by decide)
  · exact (find_total_and_empty defaultAdapter [] c8dead (Seed.many [c8rec])).2
      (fun q => c8dead_nowhere q)

/-- C9: the empty selector parses to the empty part sequence, and a find
with no parts returns the normalized seed collection unchanged — the
empty query is the identity on the seed set, not the empty result. -/
theorem empty_selector_identity :
    parseSelector "" = .ok [] ∧
    ∀ (a : Adapter) (seed : Seed), Locator.find a [] seed = getCollection seed :=
  ⟨rfl, fun _ _ => rfl⟩

/-- C10: whenever the accessor selected by a part's type yields
`undefined` on a record, the (condition-free) part with value "undefined"
matches that record, because the base predicate stringifies the accessor
result before comparing. -/
theorem undefined_accessor_matches (a : Adapter) (ty : PartType) (r : Record)
    (src : String) (direct : Bool) (h : accessorFor a ty r = none) :
    partMatches a
      { source := src
        type := ty
        direct := direct
        value := "undefined"
        condition := none } r = true := by
  cases ty <;>
    · simp only [accessorFor] at h
      simp [partMatches, getBasePredicate, h, jsString]

/-- C10 witness: the empty record has no "id" field, and the Id part with
value "undefined" matches it under the default accessors. -/
theorem undefined_accessor_matches_witness :
    partMatches defaultAdapter
      { source := "#undefined"
        type := PartType.id
        direct := false
        value := "undefined"
        condition := none } (Record.mk [] RecordList.nil) = true :=
  undefined_accessor_matches defaultAdapter PartType.id (Record.mk [] RecordList.nil)
    "#undefined" false rfl
